import Mathlib

/-!
Shallow embedding of the audio streaming pipeline of the
nuxt-openai-realtimeapi-example repository, together with theorems
settling the frozen claims about it.

Conventions of the embedding:
* audio samples are rationals (ℚ); JS float arithmetic on the values
  appearing here (clamping, and multiplication of a float32 sample by the
  constants 0x8000 / 0x7FFF, division by 0x8000) is exact in float64, so
  rational arithmetic models it faithfully;
* JS typed-array element conversion (ToInt16) is modelled explicitly:
  truncation toward zero followed by a wrap into [-0x8000, 0x7FFF];
* stateful composables become explicit state-passing functions, and the
  event-driven parts become step functions folded over a list of steps;
* fallible operations return Except / Option.
-/

/-! ## PCM codec (audio-processor worklet and utils) -/

/-- Clamping step of the converter: JS
`Math.max(-1, Math.min(1, float32Array[i]))`. -/
def clampSample (x : ℚ) : ℚ := max (-1) (min 1 x)

/-- Truncation toward zero, the integer conversion JS applies to a float
assigned into an Int16Array element (ECMAScript ToInt16, first step). -/
def jsTrunc (q : ℚ) : ℤ := if q < 0 then -(⌊-q⌋) else ⌊q⌋

/-- Second step of ECMAScript ToInt16: reduce the truncated integer mod
2^16 into the signed 16-bit range. -/
def wrapInt16 (n : ℤ) : ℤ :=
  let int16bit := n % 65536
  if 32768 ≤ int16bit then int16bit - 65536 else int16bit

/-- ECMAScript ToInt16 applied to a (rational-modelled) float. -/
def toInt16 (q : ℚ) : ℤ := wrapInt16 (jsTrunc q)

/-- Body of the loop of `convertFloat32ToPCM16` (audio-processor.js):
`let s = Math.max(-1, Math.min(1, float32Array[i]));`
`pcm16Array[i] = s < 0 ? s * 0x8000 : s * 0x7FFF;`
with the Int16Array element assignment performing ToInt16. -/
def convertSampleToPCM16 (x : ℚ) : ℤ :=
  let s := clampSample x
  if s < 0 then toInt16 (s * 0x8000) else toInt16 (s * 0x7FFF)

/-- `convertFloat32ToPCM16` (audio-processor.js): elementwise conversion
of a float sample buffer to 16-bit PCM. -/
def convertFloat32ToPCM16 (float32Array : List ℚ) : List ℤ :=
  float32Array.map convertSampleToPCM16

/-- Modelled from the spec (for comparison with the code): clamp, scale
by 0x8000 (negative) or 0x7FFF (non-negative), then round toward the
nearest integer. -/
def specConvertSample (x : ℚ) : ℤ :=
  let s := clampSample x
  if s < 0 then round (s * 0x8000) else round (s * 0x7FFF)

/-- Little-endian byte serialization of one 16-bit PCM sample, as laid
out in the Int16Array backing buffer handed to the transport. -/
def int16ToBytePair (v : ℤ) : List ℕ :=
  let u := (v % 65536).toNat
  [u % 256, u / 256]

/-- Byte layout of a whole PCM16 sample buffer (Int16Array.buffer). -/
def int16ListToBytes (vs : List ℤ) : List ℕ :=
  (vs.map int16ToBytePair).flatten

/-- Reading one 16-bit signed sample from two little-endian bytes, as
`new Int16Array(buffer)` does. -/
def bytesToInt16 (lo hi : ℕ) : ℤ :=
  let u := lo + 256 * hi
  if u < 32768 then (u : ℤ) else (u : ℤ) - 65536

/-- Reinterpreting a byte buffer as 16-bit signed samples
(`new Int16Array(buffer)`); a trailing odd byte cannot occur for buffers
produced by the pipeline (every sample contributes two bytes). -/
def bytePairsToInt16 : List ℕ → List ℤ
  | lo :: hi :: rest => bytesToInt16 lo hi :: bytePairsToInt16 rest
  | _ => []

/-- `arrayBufferToAudioData` (utils/index.ts):
`Float32Array.from(new Int16Array(buffer), value => value / 0x8000)`. -/
def arrayBufferToAudioData (buffer : List ℕ) : List ℚ :=
  (bytePairsToInt16 buffer).map (fun (value : ℤ) => (value : ℚ) / 0x8000)

/-! ### Basic codec lemmas -/

lemma clampSample_le_one (x : ℚ) : clampSample x ≤ 1 :=
  max_le (by norm_num) (min_le_left _ _)

lemma neg_one_le_clampSample (x : ℚ) : -1 ≤ clampSample x :=
  le_max_left _ _

lemma clampSample_of_mem (x : ℚ) (h1 : -1 ≤ x) (h2 : x ≤ 1) :
    clampSample x = x := by
  unfold clampSample
  rw [min_eq_right h2, max_eq_right h1]

lemma jsTrunc_nonneg_bounds (q : ℚ) (h : 0 ≤ q) :
    (jsTrunc q : ℚ) ≤ q ∧ q - 1 < (jsTrunc q : ℚ) := by
  unfold jsTrunc
  rw [if_neg (not_lt.mpr h)]
  exact ⟨Int.floor_le q, Int.sub_one_lt_floor q⟩

lemma jsTrunc_neg_bounds (q : ℚ) (h : q < 0) :
    q ≤ (jsTrunc q : ℚ) ∧ (jsTrunc q : ℚ) < q + 1 := by
  unfold jsTrunc
  rw [if_pos h]
  push_cast
  constructor
  · have := Int.floor_le (-q)
    linarith
  · have := Int.sub_one_lt_floor (-q)
    linarith

lemma wrapInt16_eq_self (n : ℤ) (h1 : -32768 ≤ n) (h2 : n ≤ 32767) :
    wrapInt16 n = n := by
  unfold wrapInt16
  dsimp only
  split <;> omega

lemma bytePairsToInt16_pair (lo hi : ℕ) (rest : List ℕ) :
    bytePairsToInt16 (lo :: hi :: rest) = bytesToInt16 lo hi :: bytePairsToInt16 rest := rfl

/-- Full characterization of the per-sample converter: the result is in
the signed 16-bit range (the ToInt16 wrap never engages), and it is the
truncation toward zero of the clamped sample scaled by 0x8000 (negative
case) or 0x7FFF (non-negative case). -/
lemma convertSample_bounds (x : ℚ) :
    (-32768 ≤ convertSampleToPCM16 x ∧ convertSampleToPCM16 x ≤ 32767) ∧
    (clampSample x < 0 →
      clampSample x * 32768 ≤ (convertSampleToPCM16 x : ℚ) ∧
      (convertSampleToPCM16 x : ℚ) < clampSample x * 32768 + 1) ∧
    (0 ≤ clampSample x →
      clampSample x * 32767 - 1 < (convertSampleToPCM16 x : ℚ) ∧
      (convertSampleToPCM16 x : ℚ) ≤ clampSample x * 32767) := by
  have hs1 : -1 ≤ clampSample x := neg_one_le_clampSample x
  have hs2 : clampSample x ≤ 1 := clampSample_le_one x
  rcases lt_or_le (clampSample x) 0 with hneg | hpos
  · have hp1 : (-32768 : ℚ) ≤ clampSample x * 32768 := by linarith
    have hp2 : clampSample x * 32768 < 0 := by linarith
    have ht := jsTrunc_neg_bounds (clampSample x * 32768) hp2
    have htlo : -32768 ≤ jsTrunc (clampSample x * 32768) := by
      have : (-32768 : ℚ) ≤ (jsTrunc (clampSample x * 32768) : ℚ) := le_trans hp1 ht.1
      exact_mod_cast this
    have hthi : jsTrunc (clampSample x * 32768) ≤ 32767 := by
      have : (jsTrunc (clampSample x * 32768) : ℚ) < 32768 := by linarith [ht.2]
      have h32 : jsTrunc (clampSample x * 32768) < 32768 := by exact_mod_cast this
      omega
    have hconv : convertSampleToPCM16 x = jsTrunc (clampSample x * 32768) := by
      unfold convertSampleToPCM16 toInt16
      rw [if_pos hneg, wrapInt16_eq_self _ htlo hthi]
    rw [hconv]
    refine ⟨⟨htlo, hthi⟩, fun _ => ⟨ht.1, ht.2⟩, fun habs => absurd habs (not_le.mpr hneg)⟩
  · have hp1 : (0 : ℚ) ≤ clampSample x * 32767 := by positivity
    have hp2 : clampSample x * 32767 ≤ 32767 := by linarith
    have hteq : jsTrunc (clampSample x * 32767) = ⌊clampSample x * 32767⌋ := by
      unfold jsTrunc
      rw [if_neg (not_lt.mpr hp1)]
    have htlo : 0 ≤ jsTrunc (clampSample x * 32767) := by
      rw [hteq]; exact Int.floor_nonneg.mpr hp1
    have hthi : jsTrunc (clampSample x * 32767) ≤ 32767 := by
      rw [hteq]
      have : (⌊clampSample x * 32767⌋ : ℚ) ≤ 32767 := le_trans (Int.floor_le _) hp2
      exact_mod_cast this
    have hconv : convertSampleToPCM16 x = jsTrunc (clampSample x * 32767) := by
      unfold convertSampleToPCM16 toInt16
      rw [if_neg (not_lt.mpr hpos), wrapInt16_eq_self _ (by omega) hthi]
    rw [hconv, hteq]
    exact ⟨⟨by omega, by rw [hteq] at hthi; exact hthi⟩,
      fun habs => absurd hpos (not_le.mpr habs),
      fun _ => ⟨Int.sub_one_lt_floor _, Int.floor_le _⟩⟩

lemma bytesToInt16_of_bytePair (v : ℤ) (h1 : -32768 ≤ v) (h2 : v ≤ 32767) :
    bytesToInt16 ((v % 65536).toNat % 256) ((v % 65536).toNat / 256) = v := by
  unfold bytesToInt16
  dsimp only
  split <;> omega

lemma arrayBufferToAudioData_bytePair (v : ℤ) (h1 : -32768 ≤ v) (h2 : v ≤ 32767)
    (bs : List ℕ) :
    arrayBufferToAudioData (int16ToBytePair v ++ bs) =
      (v : ℚ) / 32768 :: arrayBufferToAudioData bs := by
  unfold arrayBufferToAudioData int16ToBytePair
  dsimp only
  rw [List.cons_append, List.cons_append, List.nil_append, bytePairsToInt16_pair,
    List.map_cons, bytesToInt16_of_bytePair v h1 h2]

lemma int16ListToBytes_cons (v : ℤ) (vs : List ℤ) :
    int16ListToBytes (v :: vs) = int16ToBytePair v ++ int16ListToBytes vs := by
  unfold int16ListToBytes
  rw [List.map_cons, List.flatten_cons]

/-- Per-sample round-trip error bound: encode then decode moves an
in-range sample by strictly less than two quantization steps. -/
lemma roundtrip_error_lt_two_steps (x : ℚ) (h1 : -1 ≤ x) (h2 : x ≤ 1) :
    |(convertSampleToPCM16 x : ℚ) / 32768 - x| < 2 / 32768 := by
  have hb := convertSample_bounds x
  rw [clampSample_of_mem x h1 h2] at hb
  rcases lt_or_le x 0 with hneg | hpos
  · have h := hb.2.1 hneg
    rw [abs_lt]
    constructor <;> linarith [h.1, h.2]
  · have h := hb.2.2 hpos
    rw [abs_lt]
    constructor <;> linarith [h.1, h.2]

lemma bytesToInt16_range (lo hi : ℕ) (h1 : lo < 256) (h2 : hi < 256) :
    -32768 ≤ bytesToInt16 lo hi ∧ bytesToInt16 lo hi ≤ 32767 := by
  unfold bytesToInt16
  dsimp only
  split <;> omega

lemma bytePairsToInt16_range : ∀ (bs : List ℕ), (∀ b ∈ bs, b < 256) →
    ∀ v ∈ bytePairsToInt16 bs, -32768 ≤ v ∧ v ≤ 32767
  | [], _, v, hv => by simp [bytePairsToInt16] at hv
  | [_], _, v, hv => by simp [bytePairsToInt16] at hv
  | lo :: hi :: rest, h, v, hv => by
    rw [bytePairsToInt16_pair] at hv
    rcases List.mem_cons.mp hv with hv1 | hv1
    · subst hv1
      exact bytesToInt16_range lo hi (h lo (by simp)) (h hi (by simp))
    · exact bytePairsToInt16_range rest (fun b hb => h b (by simp [hb])) v hv1

/-- Claim C1 (amended): for every input sample, the float→PCM16 conversion
clamps to [-1,1], scales a negative sample by 0x8000 and a non-negative
one by 0x7FFF, and **truncates toward zero** (not round-to-nearest: the
assignment into an Int16Array applies ECMAScript ToInt16); the result
stays in the signed 16-bit range, +1.0 maps to 0x7FFF and -1.0 to
-0x8000, with no overflow. -/
theorem pcm16_truncating_conversion_c1 :
    (∀ x : ℚ, -0x8000 ≤ convertSampleToPCM16 x ∧ convertSampleToPCM16 x ≤ 0x7FFF) ∧
    (∀ x : ℚ, clampSample x < 0 →
      clampSample x * 0x8000 ≤ (convertSampleToPCM16 x : ℚ) ∧
      (convertSampleToPCM16 x : ℚ) < clampSample x * 0x8000 + 1) ∧
    (∀ x : ℚ, 0 ≤ clampSample x →
      clampSample x * 0x7FFF - 1 < (convertSampleToPCM16 x : ℚ) ∧
      (convertSampleToPCM16 x : ℚ) ≤ clampSample x * 0x7FFF) ∧
    convertSampleToPCM16 1 = 0x7FFF ∧ convertSampleToPCM16 (-1) = -0x8000 := by
  refine ⟨fun x => (convertSample_bounds x).1,
    fun x hx => (convertSample_bounds x).2.1 hx,
    fun x hx => (convertSample_bounds x).2.2 hx, ?hOne, ?hNegOne⟩
  · unfold convertSampleToPCM16 toInt16 jsTrunc wrapInt16 clampSample
    norm_num
  · unfold convertSampleToPCM16 toInt16 jsTrunc wrapInt16 clampSample
    norm_num

theorem pcm16_truncating_conversion_c1_witness :
    clampSample (-1/2) * 0x8000 ≤ (convertSampleToPCM16 (-1/2) : ℚ) ∧
    (convertSampleToPCM16 (1/2) : ℚ) ≤ clampSample (1/2) * 0x7FFF := by
  refine ⟨(pcm16_truncating_conversion_c1.2.1 (-1/2) ?h1).1,
    (pcm16_truncating_conversion_c1.2.2.1 (1/2) ?h2).2⟩
  · rw [clampSample_of_mem (-1/2) (by norm_num) (by norm_num)]
    norm_num
  · rw [clampSample_of_mem (1/2) (by norm_num) (by norm_num)]
    norm_num

/-- Counterexample to claim C1 as stated: at the sample 1/2 the code
truncates 1/2 * 0x7FFF = 16383.5 to 16383, while rounding toward the
nearest integer (the spec's words, `specConvertSample`) gives 16384. -/
theorem pcm16_round_to_nearest_counterexample_c1 :
    convertSampleToPCM16 (1/2) = 16383 ∧ specConvertSample (1/2) = 16384 ∧
    convertSampleToPCM16 (1/2) ≠ specConvertSample (1/2) := by
  have h1 : convertSampleToPCM16 (1/2) = 16383 := by
    unfold convertSampleToPCM16 toInt16 jsTrunc wrapInt16 clampSample
    norm_num
  have h2 : specConvertSample (1/2) = 16384 := by
    unfold specConvertSample clampSample
    norm_num [round_eq]
  refine ⟨h1, h2, ?hne⟩
  rw [h1, h2]
  norm_num

/-- Claim C4 (amended): encoding a buffer of samples in [-1,1] with
float→PCM16, serializing, and decoding with PCM16→float (divide by
0x8000) moves every sample by strictly less than **two** quantization
steps (2/0x8000); one step does not suffice for samples near +1. -/
theorem roundtrip_within_two_steps_c4 (xs : List ℚ) (h : ∀ x ∈ xs, -1 ≤ x ∧ x ≤ 1) :
    List.Forall₂ (fun x y => |y - x| < 2 / 0x8000) xs
      (arrayBufferToAudioData (int16ListToBytes (convertFloat32ToPCM16 xs))) := by
  induction xs with
  | nil => exact List.Forall₂.nil
  | cons x rest ih =>
    have hx := h x (List.mem_cons_self x rest)
    have hrest : ∀ y ∈ rest, -1 ≤ y ∧ y ≤ 1 := fun y hy => h y (List.mem_cons_of_mem x hy)
    have hr := (convertSample_bounds x).1
    rw [show convertFloat32ToPCM16 (x :: rest) =
          convertSampleToPCM16 x :: convertFloat32ToPCM16 rest from rfl,
      int16ListToBytes_cons, arrayBufferToAudioData_bytePair _ hr.1 hr.2]
    exact List.Forall₂.cons (roundtrip_error_lt_two_steps x hx.1 hx.2) (ih hrest)

theorem roundtrip_within_two_steps_c4_witness :
    List.Forall₂ (fun x y => |y - x| < 2 / 0x8000) [(1 : ℚ)/2]
      (arrayBufferToAudioData (int16ListToBytes (convertFloat32ToPCM16 [(1 : ℚ)/2]))) := by
  refine roundtrip_within_two_steps_c4 [(1 : ℚ)/2] ?h
  intro x hx
  rw [List.mem_singleton] at hx
  subst hx
  constructor <;> norm_num

/-- Counterexample to claim C4 as stated: the float32-representable
sample 65535/65536 encodes to 32766 and decodes to 32766/0x8000, an
error of 3/65536, strictly more than one quantization step 1/0x8000 =
2/65536. -/
theorem roundtrip_one_step_counterexample_c4 :
    (-1 ≤ (65535/65536 : ℚ) ∧ (65535/65536 : ℚ) ≤ 1) ∧
    convertSampleToPCM16 (65535/65536) = 32766 ∧
    1 / 0x8000 < |(convertSampleToPCM16 (65535/65536) : ℚ) / 0x8000 - 65535/65536| := by
  have h : convertSampleToPCM16 (65535/65536) = 32766 := by
    unfold convertSampleToPCM16 toInt16 jsTrunc wrapInt16 clampSample
    norm_num
  refine ⟨⟨by norm_num, by norm_num⟩, h, ?hgap⟩
  rw [h]
  rw [show ((32766 : ℤ) : ℚ) / 0x8000 - 65535/65536 = -(3/65536) by norm_num]
  rw [abs_neg, abs_of_pos (by norm_num)]
  norm_num

/-- Claim C10 (confirmed): every sample decoded from a byte buffer by
the playback decoder lies in [-1, 0x7FFF/0x8000] ⊂ [-1, 1). -/
theorem decoded_samples_in_range_c10 (buffer : List ℕ) (h : ∀ b ∈ buffer, b < 256) :
    ∀ y ∈ arrayBufferToAudioData buffer, -1 ≤ y ∧ y ≤ 32767 / 0x8000 := by
  intro y hy
  unfold arrayBufferToAudioData at hy
  rcases List.mem_map.mp hy with ⟨v, hv, rfl⟩
  have hr := bytePairsToInt16_range buffer h v hv
  have hlo : (-32768 : ℚ) ≤ (v : ℚ) := by exact_mod_cast hr.1
  have hhi : (v : ℚ) ≤ 32767 := by exact_mod_cast hr.2
  constructor
  · linarith
  · linarith

theorem decoded_samples_in_range_c10_witness :
    -1 ≤ ((-32768 : ℤ) : ℚ) / 0x8000 ∧ ((-32768 : ℤ) : ℚ) / 0x8000 ≤ 32767 / 0x8000 := by
  refine decoded_samples_in_range_c10 [0, 128] ?hb (((-32768 : ℤ) : ℚ) / 0x8000) ?hmem
  · intro b hb
    rcases List.mem_cons.mp hb with rfl | hb
    · norm_num
    · rw [List.mem_singleton] at hb
      subst hb
      norm_num
  · unfold arrayBufferToAudioData
    rw [show bytePairsToInt16 [0, 128] = [bytesToInt16 0 128] from rfl, List.map_cons]
    rw [show bytesToInt16 0 128 = -32768 by unfold bytesToInt16; norm_num]
    exact List.mem_singleton.mpr rfl

/-! ## Audio capture pipeline (composables/audio.ts) -/

/-- Byte-size threshold triggering an immediate flush (audio.ts line 1). -/
def BUFFER_SIZE : ℕ := 8192

/-- Period of the safety-net flush timer in milliseconds (audio.ts line 2). -/
def BUFFER_INTERVAL : ℕ := 1000

/-- The capture-side mutable state of `useAudio`: the pending chunk list
`audioBuffer` and the running byte counter `currentBufferSize`. -/
structure CaptureState where
  audioBuffer : List (List ℤ)
  currentBufferSize : ℕ
deriving DecidableEq

/-- `flushBuffer` (audio.ts): concatenate the pending chunks in arrival
order (the offset-based `mergedBuffer.set` loop writes each chunk at the
running offset, i.e. flattens), hand the merged buffer to the output
callback (first component), and reset list and counter. -/
def flushBuffer (s : CaptureState) : List ℤ × CaptureState :=
  (s.audioBuffer.flatten, ⟨[], 0⟩)

/-- `processAudioData` (audio.ts): append the incoming PCM16 chunk, add
its byte size (`pcm16Data.length * 2`), and flush once the counter
reaches `BUFFER_SIZE`. The first component is the buffer handed to the
output callback by that call, if any. -/
def processAudioData (data : List ℤ) (s : CaptureState) : Option (List ℤ) × CaptureState :=
  let s1 : CaptureState := ⟨s.audioBuffer ++ [data], s.currentBufferSize + data.length * 2⟩
  if BUFFER_SIZE ≤ s1.currentBufferSize then
    (some (flushBuffer s1).1, (flushBuffer s1).2)
  else
    (none, s1)

/-- The periodic timer installed by `startRecording`: flush only when at
least one chunk is pending. -/
def flushTimerTick (s : CaptureState) : Option (List ℤ) × CaptureState :=
  if 0 < s.audioBuffer.length then (some (flushBuffer s).1, (flushBuffer s).2)
  else (none, s)

/-- Feeding a sequence of chunks through `processAudioData`, collecting
every flushed buffer in order. -/
def runCapture : List (List ℤ) → CaptureState → List (List ℤ) × CaptureState
  | [], s => ([], s)
  | d :: ds, s =>
    let r := processAudioData d s
    let rest := runCapture ds r.2
    (r.1.toList ++ rest.1, rest.2)

lemma runCapture_conservation (chunks : List (List ℤ)) (s : CaptureState) :
    (runCapture chunks s).1.flatten ++ (runCapture chunks s).2.audioBuffer.flatten =
      s.audioBuffer.flatten ++ chunks.flatten := by
  induction chunks generalizing s with
  | nil => simp [runCapture]
  | cons d ds ih =>
    unfold runCapture processAudioData flushBuffer
    dsimp only
    split
    · simp only [Option.toList_some, List.cons_append, List.nil_append,
        List.flatten_cons, List.append_assoc]
      rw [ih]
      simp [List.flatten_append, List.append_assoc]
    · simp only [Option.toList_none, List.nil_append]
      rw [ih]
      simp [List.flatten_append, List.append_assoc]

lemma runCapture_counter (chunks : List (List ℤ)) (s : CaptureState)
    (h : s.currentBufferSize = 2 * (s.audioBuffer.map List.length).sum) :
    (runCapture chunks s).2.currentBufferSize =
      2 * ((runCapture chunks s).2.audioBuffer.map List.length).sum := by
  induction chunks generalizing s with
  | nil => simpa [runCapture] using h
  | cons d ds ih =>
    unfold runCapture processAudioData flushBuffer
    dsimp only
    split
    · exact ih ⟨[], 0⟩ (by simp)
    · refine ih ⟨s.audioBuffer ++ [d], s.currentBufferSize + d.length * 2⟩ ?h1
      simp [h]
      ring

/-- Claim C2 (confirmed): a chunk whose arrival takes the byte counter to
8192 or beyond triggers a flush within that very `processAudioData` call,
the flushed buffer is the concatenation of all pending chunks in arrival
order (the new chunk last), the pending list and byte counter are reset;
moreover over any chunk sequence the flushed buffers plus the remaining
pending chunks are exactly the input samples, in order (nothing lost or
duplicated), and the byte counter always equals twice the pending sample
count. -/
theorem capture_flush_c2 :
    (∀ (s : CaptureState) (data : List ℤ),
      8192 ≤ s.currentBufferSize + data.length * 2 →
      processAudioData data s =
        (some ((s.audioBuffer ++ [data]).flatten), (⟨[], 0⟩ : CaptureState))) ∧
    (∀ (chunks : List (List ℤ)) (s : CaptureState),
      (runCapture chunks s).1.flatten ++ (runCapture chunks s).2.audioBuffer.flatten =
        s.audioBuffer.flatten ++ chunks.flatten) ∧
    (∀ (chunks : List (List ℤ)) (s : CaptureState),
      s.currentBufferSize = 2 * (s.audioBuffer.map List.length).sum →
      (runCapture chunks s).2.currentBufferSize =
        2 * ((runCapture chunks s).2.audioBuffer.map List.length).sum) := by
  refine ⟨?hflush, runCapture_conservation, runCapture_counter⟩
  intro s data h
  unfold processAudioData flushBuffer BUFFER_SIZE
  dsimp only
  rw [if_pos h]

theorem capture_flush_c2_witness :
    processAudioData [(2 : ℤ)] ⟨[[1]], 8190⟩ =
      (some [1, 2], (⟨[], 0⟩ : CaptureState)) ∧
    (runCapture [[(5 : ℤ)]] ⟨[], 0⟩).2.currentBufferSize =
      2 * (((runCapture [[(5 : ℤ)]] ⟨[], 0⟩).2.audioBuffer.map List.length).sum) := by
  constructor
  · have h := capture_flush_c2.1 ⟨[[1]], 8190⟩ [2] (by norm_num)
    rw [h]
    simp
  · exact capture_flush_c2.2.2 [[5]] ⟨[], 0⟩ (by simp)

/-! ## Audio playback queue (composables/audio.ts) -/

/-- The playback-side state of `useAudio`: the FIFO `audioQueue`, the
mutual-exclusion flag `isPlaying`, whether an audio context exists, the
chunk currently scheduled on a buffer source (if any), and the trace of
chunks handed to `source.start()` so far, in order. -/
structure PlaybackState where
  audioQueue : List (List ℚ)
  isPlaying : Bool
  audioContext : Bool
  playingChunk : Option (List ℚ)
  playedTrace : List (List ℚ)
deriving DecidableEq

/-- `playFromQueue` (audio.ts): no-op if already playing, the queue is
empty, or there is no audio context; otherwise set the playing flag,
shift the head chunk off the queue and start it (the inner `[]` case is
the unreachable `if (!audio) return` guard after the non-empty check). -/
def playFromQueue (s : PlaybackState) : PlaybackState :=
  if s.isPlaying || s.audioQueue.isEmpty || !s.audioContext then s
  else
    match s.audioQueue with
    | [] => s
    | audio :: rest =>
      { s with
          isPlaying := true, audioQueue := rest,
          playingChunk := some audio, playedTrace := s.playedTrace ++ [audio] }

/-- The `source.onended` handler: clear the playing flag (the scheduled
source has finished) and recursively attempt the next queued chunk. -/
def sourceOnEnded (s : PlaybackState) : PlaybackState :=
  playFromQueue { s with isPlaying := false, playingChunk := none }

/-- `enqueueAudio` (audio.ts): push the buffer on the queue; if nothing
is playing, start playback. -/
def enqueueAudio (buffer : List ℚ) (s : PlaybackState) : PlaybackState :=
  let s1 := { s with audioQueue := s.audioQueue ++ [buffer] }
  if !s1.isPlaying then playFromQueue s1 else s1

/-- External playback events: an `enqueueAudio` call, or natural
completion of the currently scheduled source. -/
inductive PlayStep where
  | enqueue : List ℚ → PlayStep
  | ended : PlayStep
deriving DecidableEq

/-- One playback event; `ended` can only fire while a source is
scheduled, so it is the identity otherwise. -/
def stepPlay (s : PlaybackState) : PlayStep → PlaybackState
  | .enqueue c => enqueueAudio c s
  | .ended => if s.playingChunk.isSome then sourceOnEnded s else s

/-- State of `useAudio` right after setup: empty queue, nothing playing,
`ctx` records whether an audio context exists. -/
def initPlay (ctx : Bool) : PlaybackState := ⟨[], false, ctx, none, []⟩

/-- Folding a list of playback events from the initial state. -/
def runPlay (ctx : Bool) (steps : List PlayStep) : PlaybackState :=
  steps.foldl stepPlay (initPlay ctx)

/-- The chunks enqueued by a list of playback events, in order. -/
def enqueuedOf (steps : List PlayStep) : List (List ℚ) :=
  steps.filterMap (fun st => match st with | .enqueue c => some c | .ended => none)

/-- The playing flag mirrors the existence of a scheduled source. -/
def PlayInv (s : PlaybackState) : Prop := s.isPlaying = s.playingChunk.isSome

lemma playFromQueue_trace (s : PlaybackState) :
    (playFromQueue s).playedTrace ++ (playFromQueue s).audioQueue =
      s.playedTrace ++ s.audioQueue := by
  unfold playFromQueue
  split
  · rfl
  · split
    · rfl
    · next _ audio rest heq => simp [heq]

lemma playFromQueue_inv (s : PlaybackState) (h : PlayInv s) :
    PlayInv (playFromQueue s) := by
  unfold playFromQueue
  split
  · exact h
  · split
    · exact h
    · simp [PlayInv]

lemma stepPlay_inv (s : PlaybackState) (st : PlayStep) (h : PlayInv s) :
    PlayInv (stepPlay s st) ∧
    (stepPlay s st).playedTrace ++ (stepPlay s st).audioQueue =
      s.playedTrace ++ s.audioQueue ++ enqueuedOf [st] := by
  cases st with
  | enqueue c =>
    unfold stepPlay enqueueAudio
    dsimp only
    constructor
    · split
      · exact playFromQueue_inv _ h
      · exact h
    · split
      · rw [playFromQueue_trace]
        simp [enqueuedOf]
      · simp [enqueuedOf]
  | ended =>
    unfold stepPlay
    dsimp only
    split
    · constructor
      · exact playFromQueue_inv _ (by simp [PlayInv])
      · unfold sourceOnEnded
        rw [playFromQueue_trace]
        simp [enqueuedOf]
    · simp [enqueuedOf, h]

lemma foldl_stepPlay (steps : List PlayStep) (s : PlaybackState) (h : PlayInv s) :
    PlayInv (steps.foldl stepPlay s) ∧
    (steps.foldl stepPlay s).playedTrace ++ (steps.foldl stepPlay s).audioQueue =
      s.playedTrace ++ s.audioQueue ++ enqueuedOf steps := by
  induction steps generalizing s with
  | nil => simp [enqueuedOf, h]
  | cons st sts ih =>
    rw [List.foldl_cons]
    have h1 := stepPlay_inv s st h
    have h2 := ih (stepPlay s st) h1.1
    refine ⟨h2.1, ?htr⟩
    rw [h2.2, h1.2]
    cases st <;> simp [enqueuedOf, List.append_assoc]

/-- Claim C3 (confirmed): over every sequence of enqueue and
playback-completion events, the playing flag is set exactly while a chunk
is scheduled on a source (so at most one chunk plays at any instant), the
chunks started so far followed by the still-queued chunks are exactly the
enqueued chunks in order (strict FIFO); `playFromQueue` is a no-op when
already playing, when the queue is empty, or when no audio context
exists; and on natural completion the flag is cleared and the next queued
chunk, if any, is started. -/
theorem playback_fifo_c3 :
    (∀ (ctx : Bool) (steps : List PlayStep),
      (runPlay ctx steps).isPlaying = (runPlay ctx steps).playingChunk.isSome ∧
      (runPlay ctx steps).playedTrace ++ (runPlay ctx steps).audioQueue =
        enqueuedOf steps) ∧
    (∀ s : PlaybackState,
      s.isPlaying = true ∨ s.audioQueue = [] ∨ s.audioContext = false →
      playFromQueue s = s) ∧
    (∀ s : PlaybackState, s.audioContext = true →
      (sourceOnEnded s).playingChunk = s.audioQueue.head? ∧
      (sourceOnEnded s).isPlaying = !s.audioQueue.isEmpty ∧
      (sourceOnEnded s).audioQueue = s.audioQueue.tail) := by
  refine ⟨?hrun, ?hnoop, ?hended⟩
  · intro ctx steps
    have h := foldl_stepPlay steps (initPlay ctx) rfl
    exact ⟨h.1, by simpa [runPlay, initPlay] using h.2⟩
  · intro s h
    unfold playFromQueue
    rcases h with h | h | h <;> rw [if_pos (by simp [h])]
  · intro s hctx
    rcases hq : s.audioQueue with _ | ⟨a, rest⟩ <;>
      simp [sourceOnEnded, playFromQueue, hq, hctx]

theorem playback_fifo_c3_witness :
    playFromQueue (initPlay true) = initPlay true ∧
    (sourceOnEnded ⟨[[1]], true, true, some [2], [[2]]⟩).playingChunk = some [1] := by
  constructor
  · exact playback_fifo_c3.2.1 (initPlay true) (Or.inr (Or.inl rfl))
  · have h := playback_fifo_c3.2.2 ⟨[[1]], true, true, some [2], [[2]]⟩ rfl
    rw [h.1]
    rfl

/-! ## Session transport (useRealtimeApi, duplex-socket variant) -/

/-- Transport state of `useRealtimeApi`: the nullable socket object `ws`
and the reactive `isConnected` flag. -/
structure TransportState where
  ws : Option Unit
  isConnected : Bool
deriving DecidableEq

/-- A client event as sent by this page: a flat JSON object with string
fields (`input_audio_buffer.append \x7btype, audio\x7d`). -/
structure ClientEvent where
  fields : List (String × String)
deriving DecidableEq

/-- `JSON.stringify` on such a flat string-field object. -/
def jsonStringify (e : ClientEvent) : String :=
  "\x7b" ++ String.intercalate ","
    (e.fields.map (fun kv => "\"" ++ kv.1 ++ "\":\"" ++ kv.2 ++ "\"")) ++ "\x7d"

/-- `sendMessage` (useRealtimeApi): `if (ws && isConnected.value)
ws.send(JSON.stringify(data))`. The result is the outbound transmission,
`none` meaning nothing was sent; the function is total, so no call can
raise. -/
def sendMessage (data : ClientEvent) (s : TransportState) : Option String :=
  if s.ws.isSome && s.isConnected then some (jsonStringify data) else none

/-- Claim C5 (confirmed): while disconnected (no socket object or the
connected flag down) `sendMessage` transmits nothing and raises nothing;
while connected with a socket it transmits exactly the JSON
serialization of the event. -/
theorem transport_send_only_connected_c5 :
    (∀ (data : ClientEvent) (s : TransportState),
      s.ws = none ∨ s.isConnected = false → sendMessage data s = none) ∧
    (∀ (data : ClientEvent) (s : TransportState),
      s.ws.isSome = true → s.isConnected = true →
      sendMessage data s = some (jsonStringify data)) := by
  constructor
  · intro d s h
    unfold sendMessage
    rcases h with h | h <;> simp [h]
  · intro d s h1 h2
    unfold sendMessage
    simp [h1, h2]

theorem transport_send_only_connected_c5_witness :
    sendMessage ⟨[("type", "input_audio_buffer.append")]⟩ ⟨none, false⟩ = none ∧
    sendMessage ⟨[("type", "input_audio_buffer.append")]⟩ ⟨some (), true⟩ =
      some (jsonStringify ⟨[("type", "input_audio_buffer.append")]⟩) :=
  ⟨transport_send_only_connected_c5.1 _ _ (Or.inl rfl),
    transport_send_only_connected_c5.2 _ _ rfl rfl⟩

/-! ## Event dispatcher (pages/websocket.vue, handleWebSocketMessage) -/

/-- An inbound server event as the dispatcher reads it: the type tag and
the type-specific fields, each possibly absent (JS `undefined`). -/
structure InboundEvent where
  type : Option String
  delta : Option String
  transcript : Option String
  error : Option String
  code : Option String
deriving DecidableEq

/-- Observable client state touched by the dispatcher: the diagnostic
event log (entries may be JS `undefined`, hence `Option`), the message
log, the playback queue (audio payloads kept in their transport
encoding, which is lossless), the recording flag and the connection
flag. -/
structure ClientState where
  eventLog : List (Option String)
  messageLog : List String
  audioQueue : List String
  isRecording : Bool
  connected : Bool
deriving DecidableEq

/-- The type tags the dispatcher switch recognizes. -/
def recognizedTags : List String :=
  ["response.audio.delta", "response.audio_transcript.done",
    "conversation.item.input_audio_transcription.completed", "error"]

/-- `handleWebSocketMessage` (websocket.vue): `JSON.parse` the message
data (raising on malformed input — there is no try/catch), append the
type tag to the diagnostic event log unconditionally, then dispatch on
the tag; the switch is modelled as an if-chain. `parsed` is the outcome
of `JSON.parse` on the message data (`none` = not valid JSON). -/
def handleWebSocketMessage (parsed : Option InboundEvent) (s : ClientState) :
    Except String ClientState :=
  match parsed with
  | none => Except.error "SyntaxError"
  | some event =>
    let s1 := { s with eventLog := s.eventLog ++ [event.type] }
    if event.type = some "response.audio.delta" then
      Except.ok { s1 with audioQueue := s1.audioQueue ++ [event.delta.getD "undefined"] }
    else if event.type = some "response.audio_transcript.done" then
      Except.ok { s1 with
        messageLog := s1.messageLog ++ ["🤖: " ++ event.transcript.getD "undefined"] }
    else if event.type = some "conversation.item.input_audio_transcription.completed" then
      Except.ok { s1 with
        messageLog := s1.messageLog ++ ["😄: " ++ event.transcript.getD "undefined"] }
    else if event.type = some "error" then
      let s2 := { s1 with eventLog := s1.eventLog ++ [event.error] }
      let s3 := if s2.isRecording then { s2 with isRecording := false } else s2
      Except.ok (if event.code = some "session_expired" then { s3 with connected := false }
        else s3)
    else
      Except.ok s1

/-- Claim C6 (amended): an event with an unrecognized (or absent) type
tag is appended to the diagnostic event log and has no other observable
effect, and such dispatch never raises; but a message whose data is not
valid JSON makes the dispatcher raise at `JSON.parse` — it does not fall
through to the ignore case. -/
theorem dispatcher_unknown_tag_c6 :
    (∀ (event : InboundEvent) (s : ClientState),
      (∀ t, event.type = some t → t ∉ recognizedTags) →
      handleWebSocketMessage (some event) s =
        Except.ok { s with eventLog := s.eventLog ++ [event.type] }) ∧
    (∀ s : ClientState, handleWebSocketMessage none s = Except.error "SyntaxError") := by
  constructor
  · intro event s h
    have h1 : ¬event.type = some "response.audio.delta" := fun heq =>
      (h _ heq) (by simp [recognizedTags])
    have h2 : ¬event.type = some "response.audio_transcript.done" := fun heq =>
      (h _ heq) (by simp [recognizedTags])
    have h3 : ¬event.type = some "conversation.item.input_audio_transcription.completed" :=
      fun heq => (h _ heq) (by simp [recognizedTags])
    have h4 : ¬event.type = some "error" := fun heq =>
      (h _ heq) (by simp [recognizedTags])
    unfold handleWebSocketMessage
    dsimp only
    rw [if_neg h1, if_neg h2, if_neg h3, if_neg h4]
  · intro s
    rfl

theorem dispatcher_unknown_tag_c6_witness :
    handleWebSocketMessage (some ⟨some "session.created", none, none, none, none⟩)
        ⟨[], [], [], false, true⟩ =
      Except.ok ⟨[some "session.created"], [], [], false, true⟩ := by
  have h := dispatcher_unknown_tag_c6.1 ⟨some "session.created", none, none, none, none⟩
    ⟨[], [], [], false, true⟩ ?hm
  · simpa using h
  · intro t ht
    rw [Option.some_inj] at ht
    subst ht
    simp [recognizedTags]

/-- Counterexample to claim C6 as stated: on a message whose data is not
valid JSON the dispatcher raises (a SyntaxError escapes `JSON.parse`)
instead of falling through to the ignore case. -/
theorem dispatcher_raises_on_malformed_c6 :
    handleWebSocketMessage none ⟨[], [], [], false, true⟩ = Except.error "SyntaxError" := rfl

/-! ## Recording lifecycle (useAudio: startRecording / stopRecording) -/

/-- The ways `navigator.mediaDevices.getUserMedia` can reject. -/
inductive MicError where
  | permissionDenied
  | deviceMissing
  | other : String → MicError
deriving DecidableEq

/-- Resource-holding state of a `useAudio` instance: the recording flag,
whether an audio context object exists (and is not closed), whether the
microphone source is connected into the graph, whether the periodic
flush timer is scheduled, and whether the waveform draw loop is running. -/
structure AudioSessionState where
  isRecording : Bool
  audioContext : Bool
  mediaStreamSource : Bool
  timerActive : Bool
  rendererRunning : Bool
deriving DecidableEq

/-- `startRecording` (audio.ts): sets `isRecording` true and creates the
audio context before any await; `mic` is the outcome of the awaited
`getUserMedia` call. There is no try/catch, so a rejection propagates to
the caller (second component) with the state as it was at the await;
only on success are the worklet node, flush timer, stream source and
waveform wired up. -/
def startRecording (mic : Except MicError Unit) (s : AudioSessionState) :
    AudioSessionState × Except MicError Unit :=
  let s1 := { s with isRecording := true, audioContext := true }
  match mic with
  | Except.error e => (s1, Except.error e)
  | Except.ok _ =>
    ({ s1 with mediaStreamSource := true, timerActive := true, rendererRunning := true },
      Except.ok ())

/-- `stopRecording` (audio.ts): no-op unless recording; otherwise
disconnect the microphone source (optional chaining: fine when never
connected), reset the flag, and clear the flush timer. It neither closes
the audio context nor stops the waveform renderer. -/
def stopRecording (s : AudioSessionState) : AudioSessionState :=
  if !s.isRecording then s
  else { s with mediaStreamSource := false, isRecording := false, timerActive := false }

/-- Claim C7 (amended): when microphone access fails, `startRecording`
does NOT reset the recording flag — it stays true (it was set before the
await and there is no catch); the specific error condition propagates to
the caller unwrapped, and no other resource is wired up. -/
theorem startRecording_failure_c7 (e : MicError) (s : AudioSessionState) :
    (startRecording (Except.error e) s).1.isRecording = true ∧
    (startRecording (Except.error e) s).1.audioContext = true ∧
    (startRecording (Except.error e) s).1.mediaStreamSource = s.mediaStreamSource ∧
    (startRecording (Except.error e) s).1.timerActive = s.timerActive ∧
    (startRecording (Except.error e) s).1.rendererRunning = s.rendererRunning ∧
    (startRecording (Except.error e) s).2 = Except.error e :=
  ⟨rfl, rfl, rfl, rfl, rfl, rfl⟩

/-- Counterexample to claim C7 as stated: a permission-denied failure
from a pristine state leaves the recording flag true — it is not reset
to false as the claim requires (the specific error does propagate). -/
theorem startRecording_flag_counterexample_c7 :
    (startRecording (Except.error MicError.permissionDenied)
        ⟨false, false, false, false, false⟩).1.isRecording = true ∧
    ¬(startRecording (Except.error MicError.permissionDenied)
        ⟨false, false, false, false, false⟩).1.isRecording = false ∧
    (startRecording (Except.error MicError.permissionDenied)
        ⟨false, false, false, false, false⟩).2 =
      Except.error MicError.permissionDenied :=
  ⟨rfl, by simp [startRecording], rfl⟩

/-- Claim C8 (amended): `stopRecording` is a no-op when not recording;
otherwise it synchronously disconnects the microphone source (safe even
when it was never connected), cancels the periodic flush timer and
resets the recording flag — but it does NOT release the audio context
and does NOT stop the waveform renderer. -/
theorem stopRecording_behavior_c8 :
    (∀ s : AudioSessionState, s.isRecording = false → stopRecording s = s) ∧
    (∀ s : AudioSessionState, s.isRecording = true →
      (stopRecording s).isRecording = false ∧
      (stopRecording s).mediaStreamSource = false ∧
      (stopRecording s).timerActive = false ∧
      (stopRecording s).audioContext = s.audioContext ∧
      (stopRecording s).rendererRunning = s.rendererRunning) := by
  constructor
  · intro s h
    unfold stopRecording
    rw [if_pos (by simp [h])]
  · intro s h
    unfold stopRecording
    rw [if_neg (by simp [h])]
    exact ⟨rfl, rfl, rfl, rfl, rfl⟩

theorem stopRecording_behavior_c8_witness :
    stopRecording ⟨false, false, false, false, false⟩ =
      (⟨false, false, false, false, false⟩ : AudioSessionState) ∧
    (stopRecording ⟨true, true, false, true, true⟩).isRecording = false ∧
    (stopRecording ⟨true, true, false, true, true⟩).timerActive = false :=
  ⟨stopRecording_behavior_c8.1 ⟨false, false, false, false, false⟩ rfl,
    (stopRecording_behavior_c8.2 ⟨true, true, false, true, true⟩ rfl).1,
    (stopRecording_behavior_c8.2 ⟨true, true, false, true, true⟩ rfl).2.2.1⟩

/-- Counterexample to claim C8 as stated: stopping from a fully-wired
recording state leaves the audio context alive and the waveform renderer
running, though the claim requires both to be released/stopped. -/
theorem stopRecording_counterexample_c8 :
    (stopRecording ⟨true, true, true, true, true⟩).audioContext = true ∧
    (stopRecording ⟨true, true, true, true, true⟩).rendererRunning = true :=
  ⟨rfl, rfl⟩

/-! ## Relay service (server/routes/ws.ts) -/

/-- Server-side relay state: the module-level `connections` object
(client identifier → upstream connection), modelled extensionally — a JS
property holding `undefined` and an absent property are indistinguishable
to every lookup the handler performs, so both are `none`. Upstream
sockets are identified by creation order (`nextConn`), and `closedConns`
records those whose `close()` has been called. -/
structure RelayState where
  connections : String → Option ℕ
  nextConn : ℕ
  closedConns : List ℕ

/-- The `open` handler: create a fresh upstream connection for this
client unless one is already present (`if (!connections[peer.id])`).
The session-configuration message it registers for the upstream open
event does not touch the session map. -/
def relayOpen (id : String) (s : RelayState) : RelayState :=
  if (s.connections id).isSome then s
  else
    { connections := fun k => if k = id then some s.nextConn else s.connections k,
      nextConn := s.nextConn + 1,
      closedConns := s.closedConns }

/-- The `message` handler forwards the client event verbatim upstream;
the session map is untouched (a missing entry would make the property
access throw, also leaving the map unchanged). -/
def relayMessage (_id : String) (_msg : String) (s : RelayState) : RelayState := s

/-- The `close` handler: `connections[peer.id].close()` then remove the
binding (`= undefined` in one revision, `delete` in the other — the same
extensional map). With no entry present the `.close()` property access
throws before any mutation, leaving the map unchanged. -/
def relayClose (id : String) (s : RelayState) : RelayState :=
  match s.connections id with
  | some c =>
    { connections := fun k => if k = id then none else s.connections k,
      nextConn := s.nextConn,
      closedConns := c :: s.closedConns }
  | none => s

/-- Client-connection lifecycle events reaching the relay. -/
inductive RelayStep where
  | openPeer : String → RelayStep
  | message : String → String → RelayStep
  | closePeer : String → RelayStep

def relayStep (s : RelayState) : RelayStep → RelayState
  | RelayStep.openPeer id => relayOpen id s
  | RelayStep.message id msg => relayMessage id msg s
  | RelayStep.closePeer id => relayClose id s

/-- Process start: empty session map, no connection ever created. -/
def initRelay : RelayState := ⟨fun _ => none, 0, []⟩

def runRelay (steps : List RelayStep) : RelayState :=
  steps.foldl relayStep initRelay

/-- Relay invariant: every mapped connection was created (is below the
counter) and is still live (not closed); closed connections were
created; and no two keys share a connection. -/
def RelayInv (s : RelayState) : Prop :=
  (∀ k c, s.connections k = some c → c < s.nextConn ∧ c ∉ s.closedConns) ∧
  (∀ c ∈ s.closedConns, c < s.nextConn) ∧
  (∀ k1 k2 c, s.connections k1 = some c → s.connections k2 = some c → k1 = k2)

lemma relayStep_inv (s : RelayState) (st : RelayStep) (h : RelayInv s) :
    RelayInv (relayStep s st) := by
  obtain ⟨hlive, hclosed, hinj⟩ := h
  cases st with
  | message id msg => exact ⟨hlive, hclosed, hinj⟩
  | openPeer id =>
    unfold relayStep relayOpen
    dsimp only
    by_cases hex : (s.connections id).isSome
    · rw [if_pos hex]
      exact ⟨hlive, hclosed, hinj⟩
    · rw [if_neg hex]
      refine ⟨?_, ?_, ?_⟩
      · intro k c hk
        dsimp only at hk ⊢
        by_cases hkid : k = id
        · rw [if_pos hkid] at hk
          rw [Option.some_inj] at hk
          subst hk
          exact ⟨by omega, fun hmem => by have := hclosed _ hmem; omega⟩
        · rw [if_neg hkid] at hk
          have := hlive k c hk
          exact ⟨by omega, this.2⟩
      · intro c hc
        dsimp only at hc ⊢
        have := hclosed c hc
        omega
      · intro k1 k2 c h1 h2
        dsimp only at h1 h2
        by_cases h1id : k1 = id <;> by_cases h2id : k2 = id
        · rw [h1id, h2id]
        · rw [if_pos h1id] at h1
          rw [if_neg h2id] at h2
          rw [Option.some_inj] at h1
          have := (hlive k2 c h2).1
          omega
        · rw [if_neg h1id] at h1
          rw [if_pos h2id] at h2
          rw [Option.some_inj] at h2
          have := (hlive k1 c h1).1
          omega
        · rw [if_neg h1id] at h1
          rw [if_neg h2id] at h2
          exact hinj k1 k2 c h1 h2
  | closePeer id =>
    unfold relayStep relayClose
    dsimp only
    rcases hc0 : s.connections id with _ | c0
    · exact ⟨hlive, hclosed, hinj⟩
    · refine ⟨?_, ?_, ?_⟩
      · intro k c hk
        dsimp only at hk ⊢
        by_cases hkid : k = id
        · rw [if_pos hkid] at hk
          exact absurd hk (by simp)
        · rw [if_neg hkid] at hk
          have hl := hlive k c hk
          refine ⟨hl.1, ?hnotin⟩
          intro hmem
          rcases List.mem_cons.mp hmem with hceq | hmem2
          · subst hceq
            exact hkid (hinj k id c hk hc0)
          · exact hl.2 hmem2
      · intro c hc
        dsimp only at hc ⊢
        rcases List.mem_cons.mp hc with hceq | hmem2
        · subst hceq
          exact (hlive id _ hc0).1
        · exact hclosed c hmem2
      · intro k1 k2 c h1 h2
        dsimp only at h1 h2
        by_cases h1id : k1 = id
        · rw [if_pos h1id] at h1
          exact absurd h1 (by simp)
        · by_cases h2id : k2 = id
          · rw [if_pos h2id] at h2
            exact absurd h2 (by simp)
          · rw [if_neg h1id] at h1
            rw [if_neg h2id] at h2
            exact hinj k1 k2 c h1 h2

lemma runRelay_inv (steps : List RelayStep) : RelayInv (runRelay steps) := by
  have hinit : RelayInv initRelay := by
    refine ⟨?h1, ?h2, ?h3⟩ <;> intro k <;> simp [initRelay]
  unfold runRelay
  generalize initRelay = s0 at hinit ⊢
  induction steps generalizing s0 with
  | nil => exact hinit
  | cons st sts ih => exact ih _ (relayStep_inv s0 st hinit)

/-- Claim C9 (confirmed): in every relay state reachable by client open,
message and close events, the session map sends each key to at most one
still-live upstream connection (absent otherwise); and processing a
client close both closes that client's upstream connection and removes
its map entry. -/
theorem relay_session_map_c9 :
    (∀ (steps : List RelayStep) (k : String) (c : ℕ),
      (runRelay steps).connections k = some c →
      c ∉ (runRelay steps).closedConns) ∧
    (∀ (s : RelayState) (id : String) (c : ℕ), s.connections id = some c →
      (relayClose id s).connections id = none ∧ c ∈ (relayClose id s).closedConns) := by
  constructor
  · intro steps k c hk
    exact ((runRelay_inv steps).1 k c hk).2
  · intro s id c hc
    unfold relayClose
    rw [hc]
    exact ⟨by simp, by simp⟩

theorem relay_session_map_c9_witness :
    (runRelay [RelayStep.openPeer "alice"]).connections "alice" = some 0 ∧
    0 ∉ (runRelay [RelayStep.openPeer "alice"]).closedConns ∧
    (relayClose "alice" ⟨fun k => if k = "alice" then some 0 else none, 1, []⟩).connections
        "alice" = none := by
  have hmap : (runRelay [RelayStep.openPeer "alice"]).connections "alice" = some 0 := by
    simp [runRelay, relayStep, relayOpen, initRelay]
  refine ⟨hmap, relay_session_map_c9.1 [RelayStep.openPeer "alice"] "alice" 0 hmap, ?hcl⟩
  exact (relay_session_map_c9.2 ⟨fun k => if k = "alice" then some 0 else none, 1, []⟩
    "alice" 0 (by simp)).1
